import Mathlib

/-!
Verification of the Bismuth Governance Voting Protocol `DerivableKey` core
(`bismuthvoting/derivablekey.py`) against its natural-language specification.

Shallow embedding conventions:
* Byte strings are `List Nat` with every element `< 256`.
* Python `str` values are modelled as lists of Unicode code points
  (`List Nat`), with `.encode("utf-8")` modelled by `utf8Encode` and
  `.decode("utf-8")` by `utf8Decode`.
* HMAC-SHA512 (the `hmac`/`hashlib` primitives the module calls) is embedded
  concretely: `sha512` below is the full FIPS 180-4 algorithm on byte lists.
* The two external capabilities the specification places out of scope are
  parameters: secp256k1 public-key derivation enters `derive` as a function
  `pubkeyOf : List Nat → List Nat` (scalar bytes to uncompressed point bytes),
  and the AES-256-CBC primitive enters `encrypt`/`decrypt` as functions
  `aesEnc`/`aesDec : key → iv → data → data`.  The random byte source used by
  `random_padding` is a parameter `rnd : Nat → List Nat` (count to draw).
-/

/-! ## Integer and byte-string conversion (source: `int_to_string`, `string_to_int`) -/

/-- Loop body of `int_to_string`: collect base-256 digits of `x` least
significant first (`x & 0xFF` is `x % 256`, `x >>= 8` is `x / 256`).  The
source iterates `while x:`; the first argument is fuel bounding the number of
iterations, instantiated with `x` itself, which always suffices. -/
def int_to_string_aux : Nat → Nat → List Nat
  | 0, _ => []
  | fuel + 1, x => if x = 0 then [] else x % 256 :: int_to_string_aux fuel (x / 256)

/-- Convert integer `x` into a byte string, as per X9.62 (source
`int_to_string`): `b"\0"` for zero, otherwise the base-256 digits collected
least significant first and then reversed. -/
def int_to_string (x : Nat) : List Nat :=
  if x = 0 then [0] else (int_to_string_aux x x).reverse

/-- Convert a byte string into an integer, as per X9.62 (source
`string_to_int`): left fold `result = 256 * result + c`. -/
def string_to_int (s : List Nat) : Nat :=
  s.foldl (fun result c => 256 * result + c) 0

/-! ## UTF-8 (model of python `str.encode("utf-8")` / `bytes.decode("utf-8")`) -/

/-- A Unicode scalar value: in range and not a surrogate.  Python's UTF-8
codec refuses to encode or decode surrogate code points. -/
def ValidCp (c : Nat) : Prop := c < 0x110000 ∧ (c < 0xD800 ∨ 0xDFFF < c)

instance (c : Nat) : Decidable (ValidCp c) := by unfold ValidCp; infer_instance

/-- Standard UTF-8 encoding of one code point. -/
def utf8EncodeChar (c : Nat) : List Nat :=
  if c < 0x80 then [c]
  else if c < 0x800 then [0xC0 + c / 64, 0x80 + c % 64]
  else if c < 0x10000 then [0xE0 + c / 4096, 0x80 + c / 64 % 64, 0x80 + c % 64]
  else [0xF0 + c / 262144, 0x80 + c / 4096 % 64, 0x80 + c / 64 % 64, 0x80 + c % 64]

/-- UTF-8 encoding of a string of code points. -/
def utf8Encode : List Nat → List Nat
  | [] => []
  | c :: cs => utf8EncodeChar c ++ utf8Encode cs

/-- Strict UTF-8 decoding, byte at a time.  The state is the number `k` of
continuation bytes still expected, the accumulated code-point value `acc`,
and the inclusive bounds `lo`/`hi` for the next continuation byte (the first
continuation byte after a lead byte carries tightened bounds that exclude
overlong encodings, surrogates and values above `0x10FFFF`, exactly the
checks python's strict decoder applies; later continuation bytes are plain
`0x80`-`0xBF`).  A decoded code point is emitted when `k` reaches zero. -/
def utf8DecodeAux : List Nat → Nat → Nat → Nat → Nat → Option (List Nat)
  | [], 0, _, _, _ => some []
  | [], _ + 1, _, _, _ => none
  | b :: l, 0, _, _, _ =>
    if b < 0x80 then (utf8DecodeAux l 0 0 0 0).map (fun cs => b :: cs)
    else if b < 0xC2 then none
    else if b < 0xE0 then utf8DecodeAux l 1 (b - 0xC0) 0x80 0xBF
    else if b = 0xE0 then utf8DecodeAux l 2 0 0xA0 0xBF
    else if b = 0xED then utf8DecodeAux l 2 13 0x80 0x9F
    else if b < 0xF0 then utf8DecodeAux l 2 (b - 0xE0) 0x80 0xBF
    else if b = 0xF0 then utf8DecodeAux l 3 0 0x90 0xBF
    else if b < 0xF4 then utf8DecodeAux l 3 (b - 0xF0) 0x80 0xBF
    else if b = 0xF4 then utf8DecodeAux l 3 4 0x80 0x8F
    else none
  | b :: l, 1, acc, lo, hi =>
    if lo ≤ b ∧ b ≤ hi then
      (utf8DecodeAux l 0 0 0 0).map (fun cs => (acc * 64 + (b - 0x80)) :: cs)
    else none
  | b :: l, k + 2, acc, lo, hi =>
    if lo ≤ b ∧ b ≤ hi then utf8DecodeAux l (k + 1) (acc * 64 + (b - 0x80)) 0x80 0xBF
    else none

/-- Strict UTF-8 decoding of a byte string into code points.  Returns `none`
exactly where python's strict `bytes.decode("utf-8")` raises
`UnicodeDecodeError`: truncated sequences, bare continuation bytes, overlong
encodings, surrogates and values above `0x10FFFF`. -/
def utf8Decode (l : List Nat) : Option (List Nat) := utf8DecodeAux l 0 0 0 0

/-! ## Lowercase hex encoding (model of python `bytes.hex()`) -/

/-- Code point of the lowercase hex digit for a nibble. -/
def hexDigitCp (n : Nat) : Nat := if n < 10 then 48 + n else 87 + n

/-- Lowercase hex encoding of a byte string, as a string of code points
(model of `bytes.hex()`). -/
def bytesToHexCp : List Nat → List Nat
  | [] => []
  | b :: rest => hexDigitCp (b / 16) :: hexDigitCp (b % 16) :: bytesToHexCp rest

/-! ## SHA-512 and HMAC-SHA512 (the `hashlib.sha512` / `hmac` primitives) -/

/-- Mask for 64-bit words. -/
def M64 : Nat := 2 ^ 64 - 1

/-- Right rotation of a 64-bit word. -/
def rotr (n x : Nat) : Nat := ((x >>> n) ||| (x <<< (64 - n))) &&& M64

/-- SHA-512 big Sigma 0. -/
def bsig0 (x : Nat) : Nat := rotr 28 x ^^^ rotr 34 x ^^^ rotr 39 x

/-- SHA-512 big Sigma 1. -/
def bsig1 (x : Nat) : Nat := rotr 14 x ^^^ rotr 18 x ^^^ rotr 41 x

/-- SHA-512 small sigma 0. -/
def ssig0 (x : Nat) : Nat := rotr 1 x ^^^ rotr 8 x ^^^ (x >>> 7)

/-- SHA-512 small sigma 1. -/
def ssig1 (x : Nat) : Nat := rotr 19 x ^^^ rotr 61 x ^^^ (x >>> 6)

/-- The eighty SHA-512 round constants of FIPS 180-4. -/
def sha512K : List Nat := [
  4794697086780616226, 8158064640168781261, 13096744586834688815,
  16840607885511220156, 4131703408338449720, 6480981068601479193,
  10538285296894168987, 12329834152419229976, 15566598209576043074,
  1334009975649890238, 2608012711638119052, 6128411473006802146,
  8268148722764581231, 9286055187155687089, 11230858885718282805,
  13951009754708518548, 16472876342353939154, 17275323862435702243,
  1135362057144423861, 2597628984639134821, 3308224258029322869,
  5365058923640841347, 6679025012923562964, 8573033837759648693,
  10970295158949994411, 12119686244451234320, 12683024718118986047,
  13788192230050041572, 14330467153632333762, 15395433587784984357,
  489312712824947311, 1452737877330783856, 2861767655752347644,
  3322285676063803686, 5560940570517711597, 5996557281743188959,
  7280758554555802590, 8532644243296465576, 9350256976987008742,
  10552545826968843579, 11727347734174303076, 12113106623233404929,
  14000437183269869457, 14369950271660146224, 15101387698204529176,
  15463397548674623760, 17586052441742319658, 1182934255886127544,
  1847814050463011016, 2177327727835720531, 2830643537854262169,
  3796741975233480872, 4115178125766777443, 5681478168544905931,
  6601373596472566643, 7507060721942968483, 8399075790359081724,
  8693463985226723168, 9568029438360202098, 10144078919501101548,
  10430055236837252648, 11840083180663258601, 13761210420658862357,
  14299343276471374635, 14566680578165727644, 15097957966210449927,
  16922976911328602910, 17689382322260857208, 500013540394364858,
  748580250866718886, 1242879168328830382, 1977374033974150939,
  2944078676154940804, 3659926193048069267, 4368137639120453308,
  4836135668995329356, 5532061633213252278, 6448918945643986474,
  6902733635092675308, 7801388544844847127]

/-- The eight working variables of the SHA-512 compression function. -/
structure Sha512State where
  a : Nat
  b : Nat
  c : Nat
  d : Nat
  e : Nat
  f : Nat
  g : Nat
  h : Nat
deriving DecidableEq

/-- SHA-512 initial hash value. -/
def sha512H0 : Sha512State :=
  ⟨7640891576956012808, 13503953896175478587, 4354685564936845355,
   11912009170470909681, 5840696475078001361, 11170449401992604703,
   2270897969802886507, 6620516959819538809⟩

/-- Combine big-endian groups of eight bytes into 64-bit words. -/
def bytesToWords : List Nat → List Nat
  | b0 :: b1 :: b2 :: b3 :: b4 :: b5 :: b6 :: b7 :: rest =>
      (b0 <<< 56 ||| b1 <<< 48 ||| b2 <<< 40 ||| b3 <<< 32 |||
       b4 <<< 24 ||| b5 <<< 16 ||| b6 <<< 8 ||| b7) :: bytesToWords rest
  | _ => []

/-- Message-schedule extension: prepend the next word to `ws`, which holds
the schedule so far most recent first; repeat the given number of times. -/
def extendWords : Nat → List Nat → List Nat
  | 0, ws => ws
  | n + 1, ws =>
      let w := (ssig1 (ws.getD 1 0) + ws.getD 6 0 + ssig0 (ws.getD 14 0) + ws.getD 15 0) &&& M64
      extendWords n (w :: ws)

/-- One SHA-512 round: `kw` is the pair of round constant and schedule word. -/
def roundStep (s : Sha512State) (kw : Nat × Nat) : Sha512State :=
  let t1 := (s.h + bsig1 s.e + ((s.e &&& s.f) ^^^ ((M64 ^^^ s.e) &&& s.g)) + kw.1 + kw.2) &&& M64
  let t2 := (bsig0 s.a + ((s.a &&& s.b) ^^^ (s.a &&& s.c) ^^^ (s.b &&& s.c))) &&& M64
  ⟨(t1 + t2) &&& M64, s.a, s.b, s.c, (s.d + t1) &&& M64, s.e, s.f, s.g⟩

/-- SHA-512 compression of one 128-byte block into the chaining state. -/
def compress (s : Sha512State) (block : List Nat) : Sha512State :=
  let w16 := bytesToWords block
  let ws := (extendWords 64 w16.reverse).reverse
  let t := (sha512K.zip ws).foldl roundStep s
  ⟨(s.a + t.a) &&& M64, (s.b + t.b) &&& M64, (s.c + t.c) &&& M64, (s.d + t.d) &&& M64,
   (s.e + t.e) &&& M64, (s.f + t.f) &&& M64, (s.g + t.g) &&& M64, (s.h + t.h) &&& M64⟩

/-- Split a byte string into 128-byte blocks; the fuel argument bounds the
number of blocks and is instantiated generously. -/
def chunks128 : Nat → List Nat → List (List Nat)
  | 0, _ => []
  | _, [] => []
  | fuel + 1, l => l.take 128 :: chunks128 fuel (l.drop 128)

/-- FIPS 180-4 padding: append `0x80`, zeros, and the 128-bit big-endian bit
length (messages here are far below `2^64` bits, so the high eight length
bytes are zero). -/
def sha512Pad (msg : List Nat) : List Nat :=
  let len := msg.length
  let zeros := (128 - (len + 17) % 128) % 128
  msg ++ 0x80 :: List.replicate zeros 0 ++
    [0, 0, 0, 0, 0, 0, 0, 0,
     (len * 8) >>> 56 &&& 0xFF, (len * 8) >>> 48 &&& 0xFF, (len * 8) >>> 40 &&& 0xFF,
     (len * 8) >>> 32 &&& 0xFF, (len * 8) >>> 24 &&& 0xFF, (len * 8) >>> 16 &&& 0xFF,
     (len * 8) >>> 8 &&& 0xFF, (len * 8) &&& 0xFF]

/-- Big-endian bytes of a 64-bit word. -/
def wordToBytes (w : Nat) : List Nat :=
  [w >>> 56 &&& 0xFF, w >>> 48 &&& 0xFF, w >>> 40 &&& 0xFF, w >>> 32 &&& 0xFF,
   w >>> 24 &&& 0xFF, w >>> 16 &&& 0xFF, w >>> 8 &&& 0xFF, w &&& 0xFF]

/-- Serialize the final chaining state as the 64-byte digest. -/
def stateToBytes (s : Sha512State) : List Nat :=
  wordToBytes s.a ++ wordToBytes s.b ++ wordToBytes s.c ++ wordToBytes s.d ++
  wordToBytes s.e ++ wordToBytes s.f ++ wordToBytes s.g ++ wordToBytes s.h

/-- SHA-512 of a byte string (model of `hashlib.sha512(...).digest()`). -/
def sha512 (msg : List Nat) : List Nat :=
  let padded := sha512Pad msg
  stateToBytes ((chunks128 (padded.length / 128 + 1) padded).foldl compress sha512H0)

/-- HMAC-SHA512 (model of `hmac.new(key, msg, sha512).digest()`): block size
128, key hashed when longer than a block, zero-padded to the block size, then
the standard nested hash with the `0x36`/`0x5C` pads. -/
def hmac_sha512 (key msg : List Nat) : List Nat :=
  let k0 := if 128 < key.length then sha512 key else key
  let k1 := k0 ++ List.replicate (128 - k0.length) 0
  sha512 ((k1.map (fun b => b ^^^ 0x5C)) ++ sha512 ((k1.map (fun b => b ^^^ 0x36)) ++ msg))

/-! ## Padding and the symmetric codec (source: `random_padding`, `encrypt`, `decrypt`) -/

/-- Source `random_padding`: extend `data` to a multiple of `block_size`
bytes; `padding_len = block_size - len(data) % block_size` (always between 1
and `block_size`); pad with zeros or with bytes drawn from the random source
`rnd` (the model of `get_random_bytes`). -/
def random_padding (rnd : Nat → List Nat) (data : List Nat) (block_size : Nat)
    (pad_with_zeros : Bool) : List Nat :=
  let padding_len := block_size - data.length % block_size
  data ++ (if pad_with_zeros then List.replicate padding_len 0 else rnd padding_len)

/-- Model of python `bytes.split(b" ")`: split on every `0x20` byte; `n`
separators yield `n + 1` fields (fields may be empty). -/
def splitOn32 : List Nat → List (List Nat)
  | [] => [[]]
  | b :: rest =>
    match splitOn32 rest with
    | s :: ss => if b = 32 then [] :: s :: ss else (b :: s) :: ss
    | [] => []

/-- The fixed default IV, `"Bismuth BGVP IV.".encode('utf-8')`. -/
def BGVP_IV : List Nat :=
  utf8Encode [66, 105, 115, 109, 117, 116, 104, 32, 66, 71, 86, 80, 32, 73, 86, 46]

/-- Failure modes of the codec: `invalidKeyLength` models the failed
`assert len(aes_key) == 32`, `malformedPlaintext` the `ValueError` of the
two-element unpacking of `clear.split(b" ")`, and `invalidUtf8` the
`UnicodeDecodeError` of `clear.decode("utf-8")`. -/
inductive CodecError where
  | invalidKeyLength
  | malformedPlaintext
  | invalidUtf8
deriving DecidableEq

/-- `FIELD_ORDER = 2 ** 256` from the source. -/
def FIELD_ORDER : Nat := 2 ^ 256

/-- A `DerivableKey` holds its 512-bit seed, a `(kpar, cpar)` pair. -/
structure DerivableKey where
  seed : List Nat
deriving DecidableEq

/-- Source `to_pubkey`: the uncompressed secp256k1 public point of the first
32 seed bytes.  The elliptic-curve operation itself (`coincurve.PrivateKey`)
is the external capability `pubkeyOf`. -/
def DerivableKey.to_pubkey (pubkeyOf : List Nat → List Nat) (k : DerivableKey) : List Nat :=
  pubkeyOf (k.seed.take 32)

/-- Source `derive`: `data = self.to_pubkey().hex() + s`, then
`I = hmac.new(self.seed[32:], data.encode("utf-8"), sha512).digest()`,
`IL, IR = I[:32], I[32:]`,
`ks_int = (string_to_int(IL) + string_to_int(self.seed[:32])) % FIELD_ORDER`,
returning the key with seed `int_to_string(ks_int) + IR`. -/
def DerivableKey.derive (pubkeyOf : List Nat → List Nat) (k : DerivableKey)
    (s : List Nat) : DerivableKey :=
  let data := bytesToHexCp (k.to_pubkey pubkeyOf) ++ s
  let I := hmac_sha512 (k.seed.drop 32) (utf8Encode data)
  let IL := I.take 32
  let IR := I.drop 32
  let ks_int := (string_to_int IL + string_to_int (k.seed.take 32)) % FIELD_ORDER
  ⟨int_to_string ks_int ++ IR⟩

/-- The derived child scalar integer
`(string_to_int(IL) + string_to_int(parent.seed[:32])) % FIELD_ORDER`
of a `derive` call, named so that statements can speak about it. -/
def childScalarInt (pubkeyOf : List Nat → List Nat) (k : DerivableKey)
    (s : List Nat) : Nat :=
  let data := bytesToHexCp (k.to_pubkey pubkeyOf) ++ s
  let I := hmac_sha512 (k.seed.drop 32) (utf8Encode data)
  (string_to_int (I.take 32) + string_to_int (k.seed.take 32)) % FIELD_ORDER

/-- Source `encrypt`: assert the key is 32 bytes, append one space to the
plaintext, UTF-8 encode, pad to a 16-byte multiple (zeros or random bytes),
and CBC-encrypt under the given IV, defaulting to `BGVP_IV`.  The AES-256-CBC
primitive is the external capability `aesEnc`. -/
def DerivableKey.encrypt (aesEnc : List Nat → List Nat → List Nat → List Nat)
    (rnd : Nat → List Nat) (aes_key : List Nat) (data : List Nat)
    (pad_with_zeroes : Bool) (iv : Option (List Nat)) : Except CodecError (List Nat) :=
  if aes_key.length = 32 then
    let padded := random_padding rnd (utf8Encode (data ++ [32])) 16 pad_with_zeroes
    Except.ok (aesEnc aes_key (iv.getD BGVP_IV) padded)
  else Except.error CodecError.invalidKeyLength

/-- Source `decrypt`: assert the key is 32 bytes, CBC-decrypt under the given
IV (default `BGVP_IV`), then `clear, _ = clear.split(b" ")` — a two-element
unpacking that requires the decrypted bytes to contain exactly one space —
and UTF-8 decode the first field. -/
def DerivableKey.decrypt (aesDec : List Nat → List Nat → List Nat → List Nat)
    (aes_key : List Nat) (data : List Nat) (iv : Option (List Nat)) :
    Except CodecError (List Nat) :=
  if aes_key.length = 32 then
    let clear := aesDec aes_key (iv.getD BGVP_IV) data
    match splitOn32 clear with
    | [first, _] =>
      match utf8Decode first with
      | some s => Except.ok s
      | none => Except.error CodecError.invalidUtf8
    | _ => Except.error CodecError.malformedPlaintext
  else Except.error CodecError.invalidKeyLength

/-! ## Concrete material: the repository's own test vectors and fixed inputs -/

/-- The 64-byte seed from `tests/test_derivable.py` (`TEST_SEED_HEX`). -/
def TEST_SEED : List Nat := [149, 167, 236, 181, 107, 218, 94, 186, 128, 142, 236, 36, 7, 180, 24, 0, 43, 130, 76, 108, 28, 177, 89, 236, 68, 184, 55, 20, 5, 98, 159, 132, 41, 65, 158, 152, 225, 182, 127, 198, 54, 115, 104, 245, 216, 40, 113, 165, 1, 187, 198, 85, 166, 45, 49, 232, 57, 20, 17, 215, 166, 231, 75, 134]

/-- The uncompressed public key of `TEST_SEED`'s scalar, from the same test. -/
def TEST_PUB : List Nat := [4, 24, 185, 144, 141, 67, 245, 3, 174, 142, 211, 18, 140, 53, 237, 216, 224, 185, 53, 12, 1, 163, 137, 191, 93, 131, 174, 206, 72, 34, 114, 43, 98, 35, 219, 250, 236, 21, 128, 18, 83, 214, 88, 53, 104, 54, 128, 42, 67, 196, 1, 254, 209, 65, 90, 49, 47, 26, 9, 245, 45, 150, 165, 42, 228]

/-- The expected child seed for context `"Bis_test_address1"`, from the test. -/
def TEST_CHILD : List Nat := [197, 212, 70, 55, 235, 67, 176, 75, 250, 7, 184, 207, 18, 114, 226, 45, 149, 167, 64, 18, 108, 217, 225, 171, 115, 99, 132, 15, 17, 138, 158, 191, 102, 113, 208, 129, 234, 31, 137, 241, 58, 173, 9, 193, 169, 45, 171, 214, 46, 177, 192, 232, 27, 112, 31, 129, 22, 183, 64, 26, 48, 169, 136, 103]

/-- Code points of the test context string `"Bis_test_address1"`. -/
def CTX_ADDR1 : List Nat := [66, 105, 115, 95, 116, 101, 115, 116, 95, 97, 100, 100, 114, 101, 115, 115, 49]

/-- A public-key capability that agrees with the real secp256k1 operation at
the one scalar it is applied to, the `TEST_SEED` scalar. -/
def testPubkeyOf : List Nat → List Nat := fun _ => TEST_PUB

/-- The seed constructed so that the derived child scalar integer is exactly
zero: the scalar half is `2^256` minus the integer of the first 32 bytes of
`HMAC-SHA512(key = 32 zero bytes, msg = b"")`, and the chain-code half is 32
zero bytes. -/
def C6_SEED : List Nat := [70, 201, 49, 23, 147, 96, 120, 85, 162, 195, 144, 209, 123, 52, 165, 189, 198, 90, 1, 175, 183, 245, 145, 57, 148, 143, 84, 164, 224, 181, 57, 141, 0, 0, 0, 0, 0, 0, 0, 0, 0, 0, 0, 0, 0, 0, 0, 0, 0, 0, 0, 0, 0, 0, 0, 0, 0, 0, 0, 0, 0, 0, 0, 0]

/-- The child seed `derive` actually returns for `C6_SEED` with the empty
context: 33 bytes, the single zero scalar byte followed by the chain code. -/
def C6_CHILD : List Nat := [0, 12, 108, 81, 84, 33, 179, 39, 236, 29, 105, 64, 46, 83, 223, 180, 154, 215, 56, 30, 176, 103, 179, 56, 253, 123, 12, 178, 34, 71, 34, 93, 71]

/-- A public-key capability returning the empty byte string; `derive` only
feeds the hex of the public key into the HMAC message, so any capability
gives a genuine run of the derivation arithmetic. -/
def emptyPubkeyOf : List Nat → List Nat := fun _ => []

/-- The identity block cipher: a legitimate instance of the external
CBC capability interface (its decryption inverts its encryption and it
preserves length on block-aligned input). -/
def idAes : List Nat → List Nat → List Nat → List Nat := fun _ _ d => d

/-- A concrete 32-byte AES key made of zero bytes. -/
def key32 : List Nat := List.replicate 32 0

/-- A random source drawing all-zero bytes. -/
def zeroRnd : Nat → List Nat := fun n => List.replicate n 0

/-- A random source drawing `0x41` bytes (never a space). -/
def letterRnd : Nat → List Nat := fun n => List.replicate n 65

/-- A random-source draw whose first byte happens to be the ASCII space. -/
def spaceRnd : Nat → List Nat := fun n => 32 :: List.replicate (n - 1) 0

/-! ## Specification-side definitions (written from the claims, for comparison) -/

/-- Child derivation exactly as claim C1 words it: `I` is HMAC-SHA512 keyed
with the parent's chain code (seed bytes 32..64) over the UTF-8 bytes of the
lowercase hex encoding of the parent's uncompressed public key concatenated
with the context; the child scalar is the big-endian serialization of
`(int(I[0:32]) + int(parent scalar bytes 0..32)) mod 2^256` and the child
chain code is `I[32:64]`. -/
def deriveSpecFormula (pubkeyOf : List Nat → List Nat) (parent : DerivableKey)
    (s : List Nat) : DerivableKey :=
  let I := hmac_sha512 ((parent.seed.take 64).drop 32)
    (utf8Encode (bytesToHexCp (pubkeyOf (parent.seed.take 32)) ++ s))
  ⟨int_to_string ((string_to_int (I.take 32) + string_to_int (parent.seed.take 32)) % 2 ^ 256) ++
    ((I.take 64).drop 32)⟩

/-- Decryption as claim C5 words it: split the CBC-decrypted byte string on
the FIRST space byte, keep only the segment before it and UTF-8 decode it;
`malformedPlaintext` only when the decrypted bytes contain no space at all. -/
def decryptFirstSpaceSpec (aesDec : List Nat → List Nat → List Nat → List Nat)
    (aes_key : List Nat) (data : List Nat) (iv : Option (List Nat)) :
    Except CodecError (List Nat) :=
  if aes_key.length = 32 then
    let clear := aesDec aes_key (iv.getD BGVP_IV) data
    if 32 ∈ clear then
      match utf8Decode (clear.takeWhile (fun b => b != 32)) with
      | some s => Except.ok s
      | none => Except.error CodecError.invalidUtf8
    else Except.error CodecError.malformedPlaintext
  else Except.error CodecError.invalidKeyLength

deriving instance DecidableEq for Except

/-! ## Lemmas about the integer and byte-string conversions -/

/-- Appending a digit multiplies the accumulated value by 256 and adds it. -/
theorem string_to_int_append_one (a : List Nat) (b : Nat) :
    string_to_int (a ++ [b]) = 256 * string_to_int a + b := by
  simp [string_to_int, List.foldl_append]

/-- The digit loop with zero input produces no digits. -/
theorem int_to_string_aux_zero (fuel : Nat) : int_to_string_aux fuel 0 = [] := by
  cases fuel <;> simp [int_to_string_aux]

/-- With enough fuel, reading the collected digits back most significant
first recovers the integer. -/
theorem int_to_string_aux_roundtrip :
    ∀ fuel x, x ≤ fuel → string_to_int (int_to_string_aux fuel x).reverse = x := by
  intro fuel
  induction fuel with
  | zero =>
    intro x hx
    have : x = 0 := by omega
    subst this
    simp [int_to_string_aux, string_to_int]
  | succ f ih =>
    intro x hx
    by_cases h0 : x = 0
    · subst h0; simp [int_to_string_aux, string_to_int]
    · have hdiv : x / 256 ≤ f := by omega
      simp only [int_to_string_aux, if_neg h0, List.reverse_cons]
      rw [string_to_int_append_one, ih (x / 256) hdiv]
      omega

/-- With positive input the digit loop ends in a nonzero most significant
digit. -/
theorem int_to_string_aux_last :
    ∀ fuel x, 0 < x → x ≤ fuel →
      ∃ l d, int_to_string_aux fuel x = l ++ [d] ∧ d ≠ 0 := by
  intro fuel
  induction fuel with
  | zero => intro x hx hle; omega
  | succ f ih =>
    intro x hx hle
    by_cases hsmall : x / 256 = 0
    · refine ⟨[], x % 256, ?_, ?_⟩
      · simp only [int_to_string_aux, if_neg (by omega : ¬ x = 0), hsmall,
          int_to_string_aux_zero, List.nil_append]
      · omega
    · obtain ⟨l, d, heq, hd⟩ := ih (x / 256) (by omega) (by omega)
      exact ⟨x % 256 :: l, d, by
        simp only [int_to_string_aux, if_neg (by omega : ¬ x = 0), heq, List.cons_append], hd⟩

/-- Digit-count bound: an integer below `256 ^ n` has at most `n` digits. -/
theorem int_to_string_aux_length :
    ∀ fuel x n, x < 256 ^ n → (int_to_string_aux fuel x).length ≤ n := by
  intro fuel
  induction fuel with
  | zero => intro x n _; simp [int_to_string_aux]
  | succ f ih =>
    intro x n hlt
    by_cases h0 : x = 0
    · subst h0; simp [int_to_string_aux]
    · cases n with
      | zero => simp at hlt; omega
      | succ m =>
        have hdiv : x / 256 < 256 ^ m := by
          rw [Nat.div_lt_iff_lt_mul (by norm_num)]
          calc x < 256 ^ (m + 1) := hlt
            _ = 256 ^ m * 256 := by ring
        simp only [int_to_string_aux, if_neg h0, List.length_cons]
        have := ih (x / 256) m hdiv
        omega

/-- `int_to_string` never returns the empty string. -/
theorem int_to_string_length_pos (x : Nat) : 1 ≤ (int_to_string x).length := by
  by_cases h0 : x = 0
  · subst h0; simp [int_to_string]
  · obtain ⟨l, d, heq, _⟩ := int_to_string_aux_last x x (by omega) le_rfl
    simp [int_to_string, if_neg h0, heq]

/-- Length bound for `int_to_string` under a power-of-256 bound. -/
theorem int_to_string_length_le (x n : Nat) (hn : 0 < n) (hx : x < 256 ^ n) :
    (int_to_string x).length ≤ n := by
  by_cases h0 : x = 0
  · subst h0; simp [int_to_string]; omega
  · simp only [int_to_string, if_neg h0, List.length_reverse]
    exact int_to_string_aux_length x x n hx

/-! ## Lemmas about UTF-8 -/

/-- Encoding distributes over concatenation. -/
theorem utf8Encode_append (a b : List Nat) :
    utf8Encode (a ++ b) = utf8Encode a ++ utf8Encode b := by
  induction a with
  | nil => simp [utf8Encode]
  | cons c cs ih => simp [utf8Encode, ih]

/-- The ASCII space encodes as itself. -/
theorem utf8EncodeChar_space : utf8EncodeChar 32 = [32] := by decide

/-- A space byte only appears in the encoding of the space code point. -/
theorem mem32_utf8EncodeChar (c : Nat) (hne : c ≠ 32) : 32 ∉ utf8EncodeChar c := by
  unfold utf8EncodeChar
  split_ifs with h1 h2 h3 <;> intro hmem <;>
    simp only [List.mem_cons, List.not_mem_nil, or_false] at hmem <;> omega

/-- The encoding of a space-free string is space-free. -/
theorem mem32_utf8Encode (p : List Nat) (h : 32 ∉ p) : 32 ∉ utf8Encode p := by
  induction p with
  | nil => simp [utf8Encode]
  | cons c cs ih =>
    simp only [utf8Encode, List.mem_append]
    push_neg
    refine ⟨mem32_utf8EncodeChar c ?_, ih ?_⟩
    · intro hc; exact h (by simp [hc])
    · intro hc; exact h (by simp [hc])

/-- Final continuation byte within bounds: emit the accumulated code point. -/
theorem utf8DecodeAux_one (b : Nat) (l : List Nat) (acc lo hi : Nat)
    (h : lo ≤ b ∧ b ≤ hi) :
    utf8DecodeAux (b :: l) 1 acc lo hi =
      (utf8DecodeAux l 0 0 0 0).map (fun cs => (acc * 64 + (b - 0x80)) :: cs) := by
  rw [utf8DecodeAux, if_pos h]

/-- Second-to-last continuation byte within bounds: accumulate. -/
theorem utf8DecodeAux_two (b : Nat) (l : List Nat) (acc lo hi : Nat)
    (h : lo ≤ b ∧ b ≤ hi) :
    utf8DecodeAux (b :: l) 2 acc lo hi =
      utf8DecodeAux l 1 (acc * 64 + (b - 0x80)) 0x80 0xBF := by
  rw [utf8DecodeAux, if_pos h]

/-- Third-to-last continuation byte within bounds: accumulate. -/
theorem utf8DecodeAux_three (b : Nat) (l : List Nat) (acc lo hi : Nat)
    (h : lo ≤ b ∧ b ≤ hi) :
    utf8DecodeAux (b :: l) 3 acc lo hi =
      utf8DecodeAux l 2 (acc * 64 + (b - 0x80)) 0x80 0xBF := by
  rw [utf8DecodeAux, if_pos h]

/-- Decoding undoes the encoding of one valid code point, whatever follows. -/
theorem utf8Decode_encodeChar (c : Nat) (h : ValidCp c) (rest : List Nat) :
    utf8Decode (utf8EncodeChar c ++ rest) = (utf8Decode rest).map (fun cs => c :: cs) := by
  obtain ⟨hlt, hsur⟩ := h
  simp only [utf8Decode]
  by_cases h1 : c < 0x80
  · simp only [utf8EncodeChar, if_pos h1, List.cons_append, List.nil_append]
    rw [utf8DecodeAux, if_pos h1]
  · by_cases h2 : c < 0x800
    · simp only [utf8EncodeChar, if_neg h1, if_pos h2, List.cons_append, List.nil_append]
      rw [utf8DecodeAux]
      rw [if_neg (by omega), if_neg (by omega), if_pos (by omega)]
      rw [utf8DecodeAux_one _ _ _ _ _ ⟨by omega, by omega⟩]
      have hval : (0xC0 + c / 64 - 0xC0) * 64 + (0x80 + c % 64 - 0x80) = c := by omega
      rw [hval]
    · by_cases h3 : c < 0x10000
      · simp only [utf8EncodeChar, if_neg h1, if_neg h2, if_pos h3, List.cons_append,
          List.nil_append]
        rw [utf8DecodeAux]
        rw [if_neg (by omega), if_neg (by omega), if_neg (by omega)]
        by_cases hE0 : c < 0x1000
        · rw [if_pos (by omega)]
          rw [utf8DecodeAux_two _ _ _ _ _ ⟨by omega, by omega⟩,
            utf8DecodeAux_one _ _ _ _ _ ⟨by omega, by omega⟩]
          have hval : (0 * 64 + (0x80 + c / 64 % 64 - 0x80)) * 64 + (0x80 + c % 64 - 0x80) = c := by
            omega
          rw [hval]
        · by_cases hED : 0xD000 ≤ c ∧ c < 0xE000
          · have hlo : c < 0xD800 := by omega
            rw [if_neg (by omega), if_pos (by omega)]
            rw [utf8DecodeAux_two _ _ _ _ _ ⟨by omega, by omega⟩,
              utf8DecodeAux_one _ _ _ _ _ ⟨by omega, by omega⟩]
            have hval : (13 * 64 + (0x80 + c / 64 % 64 - 0x80)) * 64 + (0x80 + c % 64 - 0x80)
                = c := by omega
            rw [hval]
          · rw [if_neg (by omega), if_neg (by omega), if_pos (by omega)]
            rw [utf8DecodeAux_two _ _ _ _ _ ⟨by omega, by omega⟩,
              utf8DecodeAux_one _ _ _ _ _ ⟨by omega, by omega⟩]
            have hval : ((0xE0 + c / 4096 - 0xE0) * 64 + (0x80 + c / 64 % 64 - 0x80)) * 64 +
                (0x80 + c % 64 - 0x80) = c := by omega
            rw [hval]
      · simp only [utf8EncodeChar, if_neg h1, if_neg h2, if_neg h3, List.cons_append,
          List.nil_append]
        rw [utf8DecodeAux]
        rw [if_neg (by omega), if_neg (by omega), if_neg (by omega), if_neg (by omega),
          if_neg (by omega), if_neg (by omega)]
        by_cases hF0 : c < 0x40000
        · rw [if_pos (by omega)]
          rw [utf8DecodeAux_three _ _ _ _ _ ⟨by omega, by omega⟩,
            utf8DecodeAux_two _ _ _ _ _ ⟨by omega, by omega⟩,
            utf8DecodeAux_one _ _ _ _ _ ⟨by omega, by omega⟩]
          have hval : ((0 * 64 + (0x80 + c / 4096 % 64 - 0x80)) * 64 +
              (0x80 + c / 64 % 64 - 0x80)) * 64 + (0x80 + c % 64 - 0x80) = c := by omega
          rw [hval]
        · by_cases hF4 : c < 0x100000
          · rw [if_neg (by omega), if_pos (by omega)]
            rw [utf8DecodeAux_three _ _ _ _ _ ⟨by omega, by omega⟩,
              utf8DecodeAux_two _ _ _ _ _ ⟨by omega, by omega⟩,
              utf8DecodeAux_one _ _ _ _ _ ⟨by omega, by omega⟩]
            have hval : (((0xF0 + c / 262144 - 0xF0) * 64 + (0x80 + c / 4096 % 64 - 0x80)) * 64 +
                (0x80 + c / 64 % 64 - 0x80)) * 64 + (0x80 + c % 64 - 0x80) = c := by omega
            rw [hval]
          · rw [if_neg (by omega), if_neg (by omega), if_pos (by omega)]
            rw [utf8DecodeAux_three _ _ _ _ _ ⟨by omega, by omega⟩,
              utf8DecodeAux_two _ _ _ _ _ ⟨by omega, by omega⟩,
              utf8DecodeAux_one _ _ _ _ _ ⟨by omega, by omega⟩]
            have hval : ((4 * 64 + (0x80 + c / 4096 % 64 - 0x80)) * 64 +
                (0x80 + c / 64 % 64 - 0x80)) * 64 + (0x80 + c % 64 - 0x80) = c := by omega
            rw [hval]

/-- Decoding undoes the encoding of any string of valid code points. -/
theorem utf8Decode_encode (p : List Nat) (h : ∀ c ∈ p, ValidCp c) :
    utf8Decode (utf8Encode p) = some p := by
  induction p with
  | nil => rfl
  | cons c cs ih =>
    have hc : ValidCp c := h c (by simp)
    have hcs : ∀ d ∈ cs, ValidCp d := fun d hd => h d (by simp [hd])
    simp only [utf8Encode]
    rw [utf8Decode_encodeChar c hc, ih hcs]
    rfl

/-! ## Lemmas about `splitOn32` and `takeWhile` -/

/-- Splitting always yields at least one field. -/
theorem splitOn32_ne_nil : ∀ l : List Nat, splitOn32 l ≠ [] := by
  intro l
  induction l with
  | nil => simp [splitOn32]
  | cons b rest ih =>
    cases h : splitOn32 rest with
    | nil => exact absurd h ih
    | cons s ss =>
      simp only [splitOn32, h]
      split <;> simp

/-- A space-free byte string splits into the single field it is. -/
theorem splitOn32_no32 : ∀ l : List Nat, 32 ∉ l → splitOn32 l = [l] := by
  intro l
  induction l with
  | nil => intro _; rfl
  | cons b rest ih =>
    intro h
    have hb : b ≠ 32 := fun hc => h (by simp [hc])
    have hr : 32 ∉ rest := fun hc => h (by simp [hc])
    simp only [splitOn32, ih hr]
    rw [if_neg hb]

/-- Splitting at an explicit space after a space-free prefix isolates the
prefix as the first field. -/
theorem splitOn32_append (a b : List Nat) (ha : 32 ∉ a) :
    splitOn32 (a ++ 32 :: b) = a :: splitOn32 b := by
  induction a with
  | nil =>
    simp only [List.nil_append]
    cases h : splitOn32 b with
    | nil => exact absurd h (splitOn32_ne_nil b)
    | cons s ss => simp [splitOn32, h]
  | cons x a' ih =>
    have hx : x ≠ 32 := fun hc => ha (by simp [hc])
    have ha' : 32 ∉ a' := fun hc => ha (by simp [hc])
    rw [List.cons_append, splitOn32, ih ha']
    simp [hx]

/-- The number of fields is the number of spaces plus one. -/
theorem splitOn32_length : ∀ l : List Nat, (splitOn32 l).length = l.count 32 + 1 := by
  intro l
  induction l with
  | nil => simp [splitOn32]
  | cons b rest ih =>
    cases h : splitOn32 rest with
    | nil => exact absurd h (splitOn32_ne_nil rest)
    | cons s ss =>
      rw [h] at ih
      simp only [List.length_cons] at ih
      simp only [splitOn32, h]
      by_cases hb : b = 32
      · subst hb
        rw [if_pos rfl, List.count_cons_self]
        simp only [List.length_cons]
        omega
      · rw [if_neg hb, List.count_cons_of_ne (fun hc => hb hc.symm)]
        simp only [List.length_cons]
        omega

/-- A byte string containing exactly one space decomposes around it. -/
theorem count_one_decomp : ∀ l : List Nat, l.count 32 = 1 →
    ∃ a b, l = a ++ 32 :: b ∧ 32 ∉ a ∧ 32 ∉ b := by
  intro l
  induction l with
  | nil => intro h; simp at h
  | cons x rest ih =>
    intro h
    by_cases hx : x = 32
    · subst hx
      have hrest : rest.count 32 = 0 := by
        rw [List.count_cons_self] at h
        omega
      refine ⟨[], rest, by simp, by simp, ?_⟩
      rw [← List.count_eq_zero]
      exact hrest
    · have hrest : rest.count 32 = 1 := by
        rw [List.count_cons_of_ne (fun hc => hx hc.symm)] at h
        exact h
      obtain ⟨a, b, heq, hna, hnb⟩ := ih hrest
      refine ⟨x :: a, b, by rw [heq, List.cons_append], ?_, hnb⟩
      intro hc
      rcases List.mem_cons.mp hc with h1 | h1
      · exact hx h1.symm
      · exact hna h1

/-- Taking while not-space over a space-free prefix followed by a space
yields exactly the prefix. -/
theorem takeWhile_append32 (a b : List Nat) (ha : 32 ∉ a) :
    (a ++ 32 :: b).takeWhile (fun x => x != 32) = a := by
  induction a with
  | nil => simp [List.takeWhile]
  | cons x a' ih =>
    have hx : x ≠ 32 := fun hc => ha (by simp [hc])
    have ha' : 32 ∉ a' := fun hc => ha (by simp [hc])
    simp only [List.cons_append, List.takeWhile]
    have : (x != 32) = true := by simp [hx]
    rw [this]
    simp [ih ha']

/-! ## Lemmas about the hash, the codec and `derive` -/

/-- A SHA-512 digest is 64 bytes. -/
theorem sha512_length (msg : List Nat) : (sha512 msg).length = 64 := by
  simp [sha512, stateToBytes, wordToBytes]

/-- An HMAC-SHA512 digest is 64 bytes. -/
theorem hmac_sha512_length (key msg : List Nat) : (hmac_sha512 key msg).length = 64 := by
  unfold hmac_sha512
  exact sha512_length _

/-- Appending the space delimiter before encoding appends the space byte. -/
theorem utf8Encode_append_space (p : List Nat) :
    utf8Encode (p ++ [32]) = utf8Encode p ++ [32] := by
  rw [utf8Encode_append]
  rfl

/-- What `encrypt` returns when the key-length assertion passes. -/
theorem encrypt_ok (aesEnc : List Nat → List Nat → List Nat → List Nat)
    (rnd : Nat → List Nat) (k p : List Nat) (pz : Bool) (iv : Option (List Nat))
    (hk : k.length = 32) :
    DerivableKey.encrypt aesEnc rnd k p pz iv =
      Except.ok (aesEnc k (iv.getD BGVP_IV)
        (utf8Encode (p ++ [32]) ++
          (if pz then List.replicate (16 - (utf8Encode (p ++ [32])).length % 16) 0
           else rnd (16 - (utf8Encode (p ++ [32])).length % 16)))) := by
  simp only [DerivableKey.encrypt, random_padding, if_pos hk]

/-- What `decrypt` does when the decrypted bytes split around a single
space: UTF-8 decode the field before it. -/
theorem decrypt_of_decomp (aesDec : List Nat → List Nat → List Nat → List Nat)
    (k ct : List Nat) (iv : Option (List Nat)) (hk : k.length = 32)
    (a b : List Nat) (ha : 32 ∉ a) (hb : 32 ∉ b)
    (hclear : aesDec k (iv.getD BGVP_IV) ct = a ++ 32 :: b) :
    DerivableKey.decrypt aesDec k ct iv =
      match utf8Decode a with
      | some s => Except.ok s
      | none => Except.error CodecError.invalidUtf8 := by
  simp only [DerivableKey.decrypt, if_pos hk, hclear,
    splitOn32_append a b ha, splitOn32_no32 b hb]

/-- What `decrypt` does when the decrypted bytes do not contain exactly one
space: the two-element unpacking fails. -/
theorem decrypt_of_count_ne_one (aesDec : List Nat → List Nat → List Nat → List Nat)
    (k ct : List Nat) (iv : Option (List Nat)) (hk : k.length = 32)
    (hc : (aesDec k (iv.getD BGVP_IV) ct).count 32 ≠ 1) :
    DerivableKey.decrypt aesDec k ct iv = Except.error CodecError.malformedPlaintext := by
  have hlen := splitOn32_length (aesDec k (iv.getD BGVP_IV) ct)
  simp only [DerivableKey.decrypt, if_pos hk]
  rcases hsp : splitOn32 (aesDec k (iv.getD BGVP_IV) ct) with _ | ⟨a, _ | ⟨b, _ | ⟨c, rest⟩⟩⟩
  · exact absurd hsp (splitOn32_ne_nil _)
  · rfl
  · rw [hsp] at hlen
    simp only [List.length_cons, List.length_nil] at hlen
    omega
  · rfl

/-- The seed produced by `derive`, written out. -/
theorem derive_seed_eq (pubkeyOf : List Nat → List Nat) (k : DerivableKey) (s : List Nat) :
    (DerivableKey.derive pubkeyOf k s).seed =
      int_to_string (childScalarInt pubkeyOf k s) ++
        (hmac_sha512 (k.seed.drop 32)
          (utf8Encode (bytesToHexCp (pubkeyOf (k.seed.take 32)) ++ s))).drop 32 := rfl

/-! ## Validation against known vectors -/
set_option maxRecDepth 100000 in
/-- Validation: SHA-512 of `"abc"` matches the FIPS 180-4 example digest. -/
theorem sha512_abc_vector : sha512 [97, 98, 99] = [221, 175, 53, 161, 147, 97, 122, 186, 204, 65, 115, 73, 174, 32, 65, 49, 18, 230, 250, 78, 137, 169, 126, 162, 10, 158, 238, 230, 75, 85, 211, 154, 33, 146, 153, 42, 39, 79, 193, 168, 54, 186, 60, 35, 163, 254, 235, 189, 69, 77, 68, 35, 100, 60, 232, 14, 42, 154, 201, 79, 165, 76, 164, 159] := by decide

set_option maxRecDepth 400000 in
/-- Validation: HMAC-SHA512 with key `"key"` and message `"message"` matches
the reference digest. -/
theorem hmac_sha512_vector : hmac_sha512 [107, 101, 121] [109, 101, 115, 115, 97, 103, 101] = [228, 119, 56, 77, 124, 162, 41, 221, 20, 38, 230, 75, 99, 235, 242, 211, 110, 189, 109, 126, 102, 154, 103, 53, 66, 78, 114, 234, 108, 1, 211, 248, 181, 110, 179, 156, 54, 216, 35, 47, 84, 39, 153, 155, 141, 26, 63, 156, 209, 18, 143, 198, 159, 77, 117, 180, 52, 33, 104, 16, 250, 54, 126, 152] := by decide

set_option maxRecDepth 400000 in
/-- Validation: `derive` on the repository's test seed with context
`"Bis_test_address1"` reproduces the child seed asserted in the repository
test suite, byte for byte. -/
theorem derive_test_vector :
    (DerivableKey.derive testPubkeyOf ⟨TEST_SEED⟩ CTX_ADDR1).seed = TEST_CHILD := by decide

/-! ## The claims -/

set_option maxRecDepth 40000 in
/-- C1: for every parent with a 64-byte seed and every context string,
`derive` computes `I = HMAC-SHA512` keyed with the parent's chain code (seed
bytes 32..64) over the UTF-8 bytes of the lowercase hex encoding of the
parent's uncompressed public key concatenated with the context, and returns
a child whose scalar is the big-endian serialization of
`(int(I[0:32]) + int(parent scalar bytes 0..32)) mod 2^256` and whose chain
code is `I[32:64]`. -/
theorem C1_derive_follows_spec_formula (pubkeyOf : List Nat → List Nat)
    (parent : DerivableKey) (s : List Nat) (h : parent.seed.length = 64) :
    DerivableKey.derive pubkeyOf parent s = deriveSpecFormula pubkeyOf parent s := by
  simp only [DerivableKey.derive, deriveSpecFormula, DerivableKey.to_pubkey]
  rw [List.take_of_length_le (by omega : parent.seed.length ≤ 64)]
  rw [List.take_of_length_le (le_of_eq (hmac_sha512_length _ _))]
  rfl

/-- Witness for C1 at the repository's own test seed. -/
theorem C1_witness :
    TEST_SEED.length = 64 ∧
    DerivableKey.derive testPubkeyOf ⟨TEST_SEED⟩ CTX_ADDR1 =
      deriveSpecFormula testPubkeyOf ⟨TEST_SEED⟩ CTX_ADDR1 :=
  ⟨by decide, C1_derive_follows_spec_formula testPubkeyOf ⟨TEST_SEED⟩ CTX_ADDR1 (by decide)⟩

set_option maxRecDepth 400000 in
/-- C2 counterexample: deriving from the repository's own test seed with
context `"188"` yields a child seed of 63 bytes, not 64 — the child scalar
integer has a leading zero byte that `int_to_string` drops. -/
theorem C2_counterexample :
    TEST_SEED.length = 64 ∧
    (DerivableKey.derive testPubkeyOf ⟨TEST_SEED⟩ [49, 56, 56]).seed.length = 63 ∧
    (DerivableKey.derive testPubkeyOf ⟨TEST_SEED⟩ [49, 56, 56]).seed.length ≠ 64 := by
  have h : (DerivableKey.derive testPubkeyOf ⟨TEST_SEED⟩ [49, 56, 56]).seed.length = 63 := by
    decide
  exact ⟨by decide, h, by omega⟩

/-- C2 as amended: a derived seed has length `32 + L` where `L` is the
length of the minimal big-endian serialization of the child scalar integer;
`L` is between 1 and 32, so the seed is between 33 and 64 bytes, and is
shorter than 64 exactly when the scalar's top byte is zero. -/
theorem C2_amended_seed_length (pubkeyOf : List Nat → List Nat)
    (parent : DerivableKey) (s : List Nat) (h : parent.seed.length = 64) :
    (DerivableKey.derive pubkeyOf parent s).seed.length =
      32 + (int_to_string (childScalarInt pubkeyOf parent s)).length ∧
    33 ≤ (DerivableKey.derive pubkeyOf parent s).seed.length ∧
    (DerivableKey.derive pubkeyOf parent s).seed.length ≤ 64 := by
  have hdrop : ((hmac_sha512 (parent.seed.drop 32)
      (utf8Encode (bytesToHexCp (pubkeyOf (parent.seed.take 32)) ++ s))).drop 32).length = 32 := by
    rw [List.length_drop, hmac_sha512_length]
  have hlt : childScalarInt pubkeyOf parent s < FIELD_ORDER :=
    Nat.mod_lt _ (by unfold FIELD_ORDER; positivity)
  have hlt2 : childScalarInt pubkeyOf parent s < 256 ^ 32 := by
    have heq : (256 : Nat) ^ 32 = FIELD_ORDER := by unfold FIELD_ORDER; norm_num
    omega
  have hle := int_to_string_length_le (childScalarInt pubkeyOf parent s) 32 (by norm_num) hlt2
  have hpos := int_to_string_length_pos (childScalarInt pubkeyOf parent s)
  rw [derive_seed_eq, List.length_append, hdrop]
  omega

/-- Witness for C2's amended statement at the test seed. -/
theorem C2_witness :
    TEST_SEED.length = 64 ∧
    33 ≤ (DerivableKey.derive testPubkeyOf ⟨TEST_SEED⟩ CTX_ADDR1).seed.length ∧
    (DerivableKey.derive testPubkeyOf ⟨TEST_SEED⟩ CTX_ADDR1).seed.length ≤ 64 :=
  ⟨by decide, (C2_amended_seed_length testPubkeyOf ⟨TEST_SEED⟩ CTX_ADDR1 (by decide)).2⟩

set_option maxRecDepth 400000 in
/-- C6 counterexample: at a concrete parent seed and context for which the
derived child scalar integer is exactly zero, `derive` raises no error at
all — it returns a 33-byte child key. -/
theorem C6_counterexample :
    childScalarInt emptyPubkeyOf ⟨C6_SEED⟩ [] = 0 ∧
    DerivableKey.derive emptyPubkeyOf ⟨C6_SEED⟩ [] = ⟨C6_CHILD⟩ ∧
    C6_CHILD.length = 33 := by
  refine ⟨by decide, by decide, by decide⟩

/-- C6 as amended: `derive` performs no zero-scalar check; when the derived
scalar integer is zero it returns a child whose scalar serialization is the
single byte `0x00` (a 33-byte seed) instead of failing. -/
theorem C6_amended_zero_scalar_returns_key (pubkeyOf : List Nat → List Nat)
    (parent : DerivableKey) (s : List Nat)
    (h0 : childScalarInt pubkeyOf parent s = 0) :
    DerivableKey.derive pubkeyOf parent s =
      ⟨0 :: (hmac_sha512 (parent.seed.drop 32)
        (utf8Encode (bytesToHexCp (pubkeyOf (parent.seed.take 32)) ++ s))).drop 32⟩ ∧
    (DerivableKey.derive pubkeyOf parent s).seed.length = 33 := by
  have hseed := derive_seed_eq pubkeyOf parent s
  rw [h0] at hseed
  have hseed2 : (DerivableKey.derive pubkeyOf parent s).seed =
      0 :: (hmac_sha512 (parent.seed.drop 32)
        (utf8Encode (bytesToHexCp (pubkeyOf (parent.seed.take 32)) ++ s))).drop 32 := by
    rw [hseed]
    simp [int_to_string]
  refine ⟨congrArg DerivableKey.mk hseed2, ?_⟩
  rw [hseed2]
  simp only [List.length_cons, List.length_drop, hmac_sha512_length]

set_option maxRecDepth 400000 in
/-- Witness for C6's amended statement at the concrete zero-scalar input. -/
theorem C6_witness :
    DerivableKey.derive emptyPubkeyOf ⟨C6_SEED⟩ [] =
      ⟨0 :: (hmac_sha512 (C6_SEED.drop 32)
        (utf8Encode (bytesToHexCp (emptyPubkeyOf (C6_SEED.take 32)) ++ []))).drop 32⟩ :=
  (C6_amended_zero_scalar_returns_key emptyPubkeyOf ⟨C6_SEED⟩ [] (by decide)).1

/-- C3: for every 32-byte key and space-free plaintext of valid code points,
decrypting (same key, default IV) the result of `encrypt` with zero padding
returns exactly the plaintext. -/
theorem C3_roundtrip_zero_padding (aesEnc aesDec : List Nat → List Nat → List Nat → List Nat)
    (rnd : Nat → List Nat) (k p ct : List Nat) (hk : k.length = 32)
    (hinv : ∀ d, aesDec k BGVP_IV (aesEnc k BGVP_IV d) = d)
    (hval : ∀ c ∈ p, ValidCp c) (hns : 32 ∉ p)
    (henc : DerivableKey.encrypt aesEnc rnd k p true none = Except.ok ct) :
    DerivableKey.decrypt aesDec k ct none = Except.ok p := by
  rw [encrypt_ok aesEnc rnd k p true none hk] at henc
  injection henc with henc
  have hdec := decrypt_of_decomp aesDec k ct none hk (utf8Encode p)
    (List.replicate (16 - (utf8Encode (p ++ [32])).length % 16) 0)
    (mem32_utf8Encode p hns) (by simp [List.mem_replicate]) ?hclear
  case hclear =>
    rw [← henc]
    show aesDec k BGVP_IV (aesEnc k BGVP_IV _) = _
    rw [hinv, if_pos rfl, utf8Encode_append_space, List.append_assoc, List.singleton_append]
  rw [hdec, utf8Decode_encode p hval]

/-- Witness for C3 with the identity cipher on plaintext `"hi"`. -/
theorem C3_witness :
    DerivableKey.decrypt idAes key32
      [104, 105, 32, 0, 0, 0, 0, 0, 0, 0, 0, 0, 0, 0, 0, 0] none = Except.ok [104, 105] :=
  C3_roundtrip_zero_padding idAes idAes zeroRnd key32 [104, 105]
    [104, 105, 32, 0, 0, 0, 0, 0, 0, 0, 0, 0, 0, 0, 0, 0] (by decide)
    (fun d => rfl) (by decide) (by decide) (by decide)

/-- C4 counterexample: with `padWithZeros=false` there is a draw of random
padding bytes (one containing the space byte `0x20`) after which decryption
does not return the plaintext but raises the unpacking error. -/
theorem C4_counterexample :
    DerivableKey.encrypt idAes spaceRnd key32 [97] false none =
      Except.ok [97, 32, 32, 0, 0, 0, 0, 0, 0, 0, 0, 0, 0, 0, 0, 0] ∧
    DerivableKey.decrypt idAes key32
      [97, 32, 32, 0, 0, 0, 0, 0, 0, 0, 0, 0, 0, 0, 0, 0] none =
      Except.error CodecError.malformedPlaintext := by
  refine ⟨by decide, by decide⟩

/-- C4 as amended: with random padding the round trip holds for every draw
of padding bytes that contains no space byte. -/
theorem C4_amended_roundtrip_spacefree_padding
    (aesEnc aesDec : List Nat → List Nat → List Nat → List Nat)
    (rnd : Nat → List Nat) (k p ct : List Nat) (hk : k.length = 32)
    (hinv : ∀ d, aesDec k BGVP_IV (aesEnc k BGVP_IV d) = d)
    (hval : ∀ c ∈ p, ValidCp c) (hns : 32 ∉ p) (hrnd : ∀ n, 32 ∉ rnd n)
    (henc : DerivableKey.encrypt aesEnc rnd k p false none = Except.ok ct) :
    DerivableKey.decrypt aesDec k ct none = Except.ok p := by
  rw [encrypt_ok aesEnc rnd k p false none hk] at henc
  injection henc with henc
  have hdec := decrypt_of_decomp aesDec k ct none hk (utf8Encode p)
    (rnd (16 - (utf8Encode (p ++ [32])).length % 16))
    (mem32_utf8Encode p hns) (hrnd _) ?hclear
  case hclear =>
    rw [← henc]
    show aesDec k BGVP_IV (aesEnc k BGVP_IV _) = _
    rw [hinv, if_neg (by simp), utf8Encode_append_space, List.append_assoc,
      List.singleton_append]
  rw [hdec, utf8Decode_encode p hval]

/-- Witness for C4's amended statement with a space-free random draw. -/
theorem C4_witness :
    DerivableKey.decrypt idAes key32
      [104, 105, 32, 65, 65, 65, 65, 65, 65, 65, 65, 65, 65, 65, 65, 65] none =
      Except.ok [104, 105] :=
  C4_amended_roundtrip_spacefree_padding idAes idAes letterRnd key32 [104, 105]
    [104, 105, 32, 65, 65, 65, 65, 65, 65, 65, 65, 65, 65, 65, 65, 65] (by decide)
    (fun d => rfl) (by decide) (by decide)
    (fun n => by simp [letterRnd, List.mem_replicate]) (by decide)

/-- C5 counterexample: on decrypted bytes `"a b c"` (two spaces) the claim's
described behavior returns the segment `"a"` before the first space, but
`decrypt` raises the unpacking error instead. -/
theorem C5_counterexample :
    DerivableKey.decrypt idAes key32 [97, 32, 98, 32, 99] none =
      Except.error CodecError.malformedPlaintext ∧
    decryptFirstSpaceSpec idAes key32 [97, 32, 98, 32, 99] none = Except.ok [97] ∧
    DerivableKey.decrypt idAes key32 [97, 32, 98, 32, 99] none ≠
      decryptFirstSpaceSpec idAes key32 [97, 32, 98, 32, 99] none := by
  refine ⟨by decide, by decide, by decide⟩

/-- C5 as amended: `decrypt` requires exactly one space in the decrypted
bytes; with exactly one space it keeps the segment before it and UTF-8
decodes it (failing with `invalidUtf8` when invalid); with no space or more
than one space it fails with `malformedPlaintext`. -/
theorem C5_amended_decrypt_behavior (aesDec : List Nat → List Nat → List Nat → List Nat)
    (k ct : List Nat) (iv : Option (List Nat)) (hk : k.length = 32) :
    ((aesDec k (iv.getD BGVP_IV) ct).count 32 = 1 →
      DerivableKey.decrypt aesDec k ct iv =
        match utf8Decode ((aesDec k (iv.getD BGVP_IV) ct).takeWhile (fun b => b != 32)) with
        | some s => Except.ok s
        | none => Except.error CodecError.invalidUtf8) ∧
    ((aesDec k (iv.getD BGVP_IV) ct).count 32 ≠ 1 →
      DerivableKey.decrypt aesDec k ct iv = Except.error CodecError.malformedPlaintext) := by
  constructor
  · intro h1
    obtain ⟨a, b, heq, hna, hnb⟩ := count_one_decomp _ h1
    rw [decrypt_of_decomp aesDec k ct iv hk a b hna hnb heq, heq,
      takeWhile_append32 a b hna]
  · intro h1
    exact decrypt_of_count_ne_one aesDec k ct iv hk h1

/-- Witness for C5's amended statement: exactly one space, valid UTF-8. -/
theorem C5_witness :
    DerivableKey.decrypt idAes key32 [97, 32, 0, 0] none = Except.ok [97] := by
  have h := (C5_amended_decrypt_behavior idAes key32 [97, 32, 0, 0] none (by decide)).1
    (by decide)
  rw [h]
  decide

/-- C7: the ciphertext length is a multiple of 16 and at least the UTF-8
plaintext length plus one; the padding length is `16 - (len mod 16)`, always
between 1 and 16, so an already-aligned plaintext-plus-delimiter still
receives a full 16-byte padding block. -/
theorem C7_ciphertext_length (aesEnc : List Nat → List Nat → List Nat → List Nat)
    (rnd : Nat → List Nat) (k p : List Nat) (pz : Bool) (iv : Option (List Nat))
    (ct : List Nat) (hk : k.length = 32)
    (hlen : ∀ k2 i d, (aesEnc k2 i d).length = d.length)
    (hrnd : ∀ n, (rnd n).length = n)
    (henc : DerivableKey.encrypt aesEnc rnd k p pz iv = Except.ok ct) :
    ct.length % 16 = 0 ∧
    (utf8Encode p).length + 1 ≤ ct.length ∧
    ct.length = (utf8Encode p).length + 1 + (16 - ((utf8Encode p).length + 1) % 16) ∧
    1 ≤ 16 - ((utf8Encode p).length + 1) % 16 ∧
    16 - ((utf8Encode p).length + 1) % 16 ≤ 16 ∧
    (((utf8Encode p).length + 1) % 16 = 0 → 16 - ((utf8Encode p).length + 1) % 16 = 16) := by
  rw [encrypt_ok aesEnc rnd k p pz iv hk] at henc
  injection henc with henc
  have hdata : (utf8Encode (p ++ [32])).length = (utf8Encode p).length + 1 := by
    rw [utf8Encode_append_space, List.length_append]
    rfl
  have hctlen : ct.length =
      (utf8Encode p).length + 1 + (16 - ((utf8Encode p).length + 1) % 16) := by
    rw [← henc, hlen, List.length_append, hdata]
    congr 1
    cases pz
    · simp only [if_neg Bool.false_ne_true, hrnd]
    · simp only [if_true, List.length_replicate]
  omega

/-- Witness for C7 with the identity cipher on plaintext `"hi"`. -/
theorem C7_witness :
    ([104, 105, 32, 0, 0, 0, 0, 0, 0, 0, 0, 0, 0, 0, 0, 0] : List Nat).length % 16 = 0 ∧
    (utf8Encode [104, 105]).length + 1 ≤
      ([104, 105, 32, 0, 0, 0, 0, 0, 0, 0, 0, 0, 0, 0, 0, 0] : List Nat).length :=
  have H := C7_ciphertext_length idAes zeroRnd key32 [104, 105] true none
    [104, 105, 32, 0, 0, 0, 0, 0, 0, 0, 0, 0, 0, 0, 0, 0] (by decide)
    (fun k2 i d => rfl) (fun n => by simp [zeroRnd]) (by decide)
  ⟨H.1, H.2.1⟩

/-- C8: with no IV supplied, both `encrypt` and `decrypt` use the same fixed
16-byte IV, the UTF-8 bytes of the ASCII string `"Bismuth BGVP IV."`. -/
theorem C8_default_iv (aesEnc aesDec : List Nat → List Nat → List Nat → List Nat)
    (rnd : Nat → List Nat) (k p d : List Nat) (pz : Bool) :
    DerivableKey.encrypt aesEnc rnd k p pz none =
      DerivableKey.encrypt aesEnc rnd k p pz (some BGVP_IV) ∧
    DerivableKey.decrypt aesDec k d none = DerivableKey.decrypt aesDec k d (some BGVP_IV) ∧
    BGVP_IV = [66, 105, 115, 109, 117, 116, 104, 32, 66, 71, 86, 80, 32, 73, 86, 46] ∧
    BGVP_IV.length = 16 :=
  ⟨rfl, rfl, by decide, by decide⟩

/-- C9: `string_to_int` inverts `int_to_string`; the encoding is the minimal
big-endian one — no leading zero byte for positive integers, and the single
byte `0x00` for zero. -/
theorem C9_int_string_roundtrip (x : Nat) :
    string_to_int (int_to_string x) = x ∧
    (x = 0 → int_to_string x = [0]) ∧
    (0 < x → ∃ d l, int_to_string x = d :: l ∧ d ≠ 0) := by
  refine ⟨?_, ?_, ?_⟩
  · by_cases h0 : x = 0
    · subst h0; rfl
    · simp only [int_to_string, if_neg h0]
      exact int_to_string_aux_roundtrip x x le_rfl
  · intro h0; subst h0; rfl
  · intro hpos
    obtain ⟨l, d, heq, hd⟩ := int_to_string_aux_last x x hpos le_rfl
    refine ⟨d, l.reverse, ?_, hd⟩
    simp [int_to_string, if_neg (by omega : ¬ x = 0), heq]

/-- Witness for C9 at 65536 and 0. -/
theorem C9_witness :
    string_to_int (int_to_string 65536) = 65536 ∧
    (∃ d l, int_to_string 65536 = d :: l ∧ d ≠ 0) ∧
    int_to_string 0 = [0] :=
  ⟨(C9_int_string_roundtrip 65536).1,
   (C9_int_string_roundtrip 65536).2.2 (by decide),
   (C9_int_string_roundtrip 0).2.1 rfl⟩

/-- C10: `decrypt` returns normally only when the decrypted byte string
contains exactly one space byte; with two or more spaces it raises an error
instead of returning the segment before the first space. -/
theorem C10_exactly_one_space (aesDec : List Nat → List Nat → List Nat → List Nat)
    (k ct : List Nat) (iv : Option (List Nat)) (hk : k.length = 32) :
    (∀ p, DerivableKey.decrypt aesDec k ct iv = Except.ok p →
      (aesDec k (iv.getD BGVP_IV) ct).count 32 = 1) ∧
    (2 ≤ (aesDec k (iv.getD BGVP_IV) ct).count 32 →
      DerivableKey.decrypt aesDec k ct iv = Except.error CodecError.malformedPlaintext) := by
  constructor
  · intro p hp
    by_contra hne
    rw [decrypt_of_count_ne_one aesDec k ct iv hk hne] at hp
    exact Except.noConfusion hp
  · intro h2
    exact decrypt_of_count_ne_one aesDec k ct iv hk (by omega)

/-- Witness for C10 on decrypted bytes with two spaces. -/
theorem C10_witness :
    DerivableKey.decrypt idAes key32 [97, 32, 98, 32] none =
      Except.error CodecError.malformedPlaintext :=
  (C10_exactly_one_space idAes key32 [97, 32, 98, 32] none (by decide)).2 (by decide)
